import Mathlib

set_option maxHeartbeats 1000000

/- Verification of relenv's build orchestration core
   (src/relenv/build/common.py): a shallow embedding of the
   download/verification subsystem, the download phase runner, the
   dependency-gated build scheduler, the step runner's exit paths,
   archive creation, pickling of the directory layout, and the
   version-check helpers, together with theorems about the spec's claims. -/

/-! ## Archive creation (create_archive, C7) -/

/-- Glob matching as performed by glob.fnmatch.fnmatch on the archive
allow-list patterns: a star matches any character sequence (fnmatch is not
path-aware, so a star crosses path separators), a question mark matches a
single character, and every other character matches itself.  Character
classes are not modelled; the archive allow-lists in the source contain
none. -/
def globMatch : List Char → List Char → Bool
  | [], s => s.isEmpty
  | '*' :: ps, s => s.tails.any (fun t => globMatch ps t)
  | '?' :: ps, s =>
    match s with
    | [] => false
    | _ :: cs => globMatch ps cs
  | p :: ps, s =>
    match s with
    | [] => false
    | c :: cs => p == c && globMatch ps cs

/-- fnmatch(name, pattern) on strings (POSIX case behaviour). -/
def fnmatch (s pat : String) : Bool := globMatch pat.data s.data

/-- The file selection performed by create_archive: walking the prefix
directory yields each file's path relative to the prefix; the file is added
to the archive iff "/" prepended to that relative path matches at least one
of the allow-list globs, and skipped otherwise. -/
def create_archive (files : List String) (globs : List String) : List String :=
  files.filter (fun rel => globs.any (fun g => fnmatch ("/" ++ rel) g))

/-! ## Dirs pickling (Dirs.__getstate__ / Dirs.__setstate__, C10) -/

/-- The Dirs container for build-time directories.  The version attribute is
Option-valued so that an object on which the attribute was never set (as
happens after unpickling) is representable: none models the attribute being
absent. -/
structure Dirs where
  name : String
  version : Option String
  arch : String
  root : String
  build : String
  downloads : String
  logs : String
  sources : String
  tmpbuild : String
deriving DecidableEq, Repr

/-- The picklable state returned by Dirs.__getstate__: exactly the eight
keys name, arch, root, build, downloads, logs, sources and tmpbuild. -/
structure DirsState where
  name : String
  arch : String
  root : String
  build : String
  downloads : String
  logs : String
  sources : String
  tmpbuild : String
deriving DecidableEq, Repr

/-- Dirs.__getstate__. -/
def dirsGetstate (d : Dirs) : DirsState :=
  { name := d.name, arch := d.arch, root := d.root, build := d.build,
    downloads := d.downloads, logs := d.logs, sources := d.sources,
    tmpbuild := d.tmpbuild }

/-- Dirs.__setstate__ applied to a fresh object: it assigns the eight stored
keys and never assigns version, so the reconstructed object has no version
attribute. -/
def dirsSetstate (st : DirsState) : Dirs :=
  { name := st.name, arch := st.arch, root := st.root, build := st.build,
    downloads := st.downloads, logs := st.logs, sources := st.sources,
    tmpbuild := st.tmpbuild, version := none }

/-- Dirs._triplet, parameterized by sys.platform. -/
def dirsTriplet (plat arch : String) : String :=
  if plat = "darwin" then arch ++ "-macos"
  else if plat = "win32" then arch ++ "-win"
  else arch ++ "-linux-gnu"

/-- Dirs.prefix: build / f-string of version and triplet.  Accessing it on an
object without a version attribute raises AttributeError, modelled as none. -/
def dirsPrefixPath (plat : String) (d : Dirs) : Option String :=
  d.version.map (fun v => d.build ++ "/" ++ v ++ "-" ++ dirsTriplet plat d.arch)

/-! ## Version checking (check_files / compare_versions, C8)

The code parses version strings with packaging.version.parse, falling back
to looseversion.LooseVersion when the current pinned version does not parse
strictly, and compares parsed values with the > operator, catching
TypeError.  The two parsers are external collaborators; they are modelled
here on the fragment the code exercises: strict parsing accepts
dot-separated numerals (release segments) and rejects anything else, and
loose values compare componentwise with a TypeError on a numeric/textual
mismatch. -/

/-- One component of a LooseVersion: a numeral run or a textual run. -/
inductive LComp where
  | num (n : Nat)
  | text (s : String)
deriving DecidableEq, Repr

/-- Flush the pending component. -/
def lflush : Option LComp → List LComp
  | none => []
  | some x => [x]

/-- Tokenizer for LooseVersion: maximal digit runs become numbers, dots are
dropped, all other characters group into textual runs. -/
def looseTokensAux : Option LComp → List Char → List LComp
  | acc, [] => lflush acc
  | acc, c :: cs =>
    if c = '.' then lflush acc ++ looseTokensAux none cs
    else if c.isDigit then
      match acc with
      | some (LComp.num n) => looseTokensAux (some (LComp.num (n * 10 + (c.toNat - 48)))) cs
      | some (LComp.text s) => LComp.text s :: looseTokensAux (some (LComp.num (c.toNat - 48))) cs
      | none => looseTokensAux (some (LComp.num (c.toNat - 48))) cs
    else
      match acc with
      | some (LComp.text s) => looseTokensAux (some (LComp.text (s.push c))) cs
      | some (LComp.num n) => LComp.num n :: looseTokensAux (some (LComp.text (String.singleton c))) cs
      | none => looseTokensAux (some (LComp.text (String.singleton c))) cs

/-- LooseVersion component list of a string. -/
def looseComponents (s : String) : List LComp := looseTokensAux none s.data

/-- Split a character list on dots (str.split of Python). -/
def splitDotsAux (cur : List Char) : List Char → List (List Char)
  | [] => [cur.reverse]
  | c :: cs =>
    if c = '.' then cur.reverse :: splitDotsAux [] cs
    else splitDotsAux (c :: cur) cs

/-- Parse a character list as a decimal numeral. -/
def charsToNatAux (acc : Nat) : List Char → Option Nat
  | [] => some acc
  | c :: cs =>
    if c.isDigit then charsToNatAux (acc * 10 + (c.toNat - 48)) cs else none

/-- Parse a nonempty character list as a decimal numeral. -/
def chars_to_nat : List Char → Option Nat
  | [] => none
  | cs => charsToNatAux 0 cs

/-- Strict version parsing (packaging.version.parse restricted to release
segments): accepts a nonempty dot-separated sequence of decimal numerals,
rejects everything else (InvalidVersion, modelled as none). -/
def parseStrict (s : String) : Option (List Nat) :=
  let parts := splitDotsAux [] s.data
  if parts.all (fun p => (chars_to_nat p).isSome) then
    some (parts.map (fun p => (chars_to_nat p).getD 0))
  else none

/-- Comparison of strict release tuples, zero-padding the shorter one as
packaging does (so 3.10 equals 3.10.0). -/
def cmpRelease : List Nat → List Nat → Ordering
  | [], [] => .eq
  | [], b :: bs => if (b :: bs).all (fun x => x == 0) then .eq else .lt
  | a :: as, [] => if (a :: as).all (fun x => x == 0) then .eq else .gt
  | a :: as, b :: bs =>
    if a < b then .lt else if b < a then .gt else cmpRelease as bs

/-- Comparison of LooseVersion components: numbers compare numerically,
text compares lexically, and a number against text raises TypeError
(modelled as none). -/
def lcompCmp : LComp → LComp → Option Ordering
  | .num a, .num b => some (compare a b)
  | .text a, .text b => some (compare a b)
  | _, _ => none

/-- List comparison of LooseVersion component lists (Python sequence
comparison, propagating TypeError). -/
def llistCmp : List LComp → List LComp → Option Ordering
  | [], [] => some .eq
  | [], _ :: _ => some .lt
  | _ :: _, [] => some .gt
  | a :: as, b :: bs =>
    match lcompCmp a b with
    | none => none
    | some .eq => llistCmp as bs
    | some o => some o

/-- A parsed version value: a strict packaging Version or a LooseVersion. -/
inductive PyVersion where
  | strict (v : List Nat)
  | loose (s : String)
deriving DecidableEq, Repr

/-- The > comparison on parsed versions as Python evaluates it; none models
a TypeError escaping the comparison. -/
def pvGt (a b : PyVersion) : Option Bool :=
  match a, b with
  | .strict x, .strict y => some (cmpRelease x y == .gt)
  | .loose x, .loose y =>
    match llistCmp (looseComponents x) (looseComponents y) with
    | none => none
    | some o => some (o == .gt)
  | _, _ => none

/-- Ordering used to model list.sort() over parsed versions. -/
def pvLe (a b : PyVersion) : Bool := !((pvGt a b).getD false)

/-- Insertion into a sorted list. -/
def insertSorted {α : Type} (le : α → α → Bool) (x : α) : List α → List α
  | [] => [x]
  | y :: ys => if le x y then x :: y :: ys else y :: insertSorted le x ys

/-- Insertion sort, modelling list.sort() (ascending). -/
def sortL {α : Type} (le : α → α → Bool) : List α → List α
  | [] => []
  | x :: xs => insertSorted le x (sortL le xs)

/-- A line printed by compare_versions. -/
inductive VMsg (V : Type) where
  | newer (v : V)
  | unable (v : V)
deriving DecidableEq, Repr

/-- compare_versions: for each discovered version, print a "Found new
version" line when it compares greater than the current one, print an
"Unable to compare versions" line when the comparison raises TypeError, and
print nothing otherwise.  Generic in the comparison oracle. -/
def compare_versions {V : Type} (gt : V → V → Option Bool) (current : V)
    (versions : List V) : List (VMsg V) :=
  versions.filterMap (fun v =>
    match gt v current with
    | some true => some (VMsg.newer v)
    | some false => none
    | none => some (VMsg.unable v))

/-- The version-selection pipeline of check_files, starting from the
discovered version strings (the non-None results of the caller-supplied
extraction function on the page's hyperlinks): parse the current pinned
version strictly, falling back to LooseVersion when that raises
InvalidVersion; in strict mode parse each discovered string strictly and
silently drop the ones that fail; in loose mode wrap every discovered
string as a LooseVersion; sort; then report via compare_versions. -/
def check_files_msgs (current : String) (discovered : List String) :
    List (VMsg PyVersion) :=
  match parseStrict current with
  | some c =>
    let versions :=
      discovered.filterMap (fun v => (parseStrict v).map PyVersion.strict)
    compare_versions pvGt (PyVersion.strict c) (sortL pvLe versions)
  | none =>
    let versions := discovered.map PyVersion.loose
    compare_versions pvGt (PyVersion.loose current) (sortL pvLe versions)

/-! ## The Download class (fetch_file, validation, __call__; C1, C2, C6)

External effects (the network via download_url, the filesystem, hashing)
are supplied as an oracle world; Python exceptions are modelled with
Except. -/

deriving instance DecidableEq for Except

/-- A Python exception as relevant here. -/
inductive PyErr where
  | typeError
  | relenvError (msg : String)
  | transport (msg : String)
deriving DecidableEq, Repr

/-- The external world a Download interacts with: the outcome of
download_url on the primary and fallback urls, the md5 of the file cached
at the download location (none when the file does not exist), and the md5
of the file found at the destination after a fetch. -/
structure FetchWorld where
  primary : Except String String
  fallback : Except String String
  cachedMd5 : Option String
  fetchedMd5 : String

/-- The Download descriptor (fields of Download.__init__ used by the
fetch/validate paths). -/
structure Download where
  name : String
  url_tpl : String
  fallback_url_tpl : Option String
  signature_tpl : Option String
  destination : String
  version : String
  md5sum : Option String
deriving DecidableEq, Repr

/-- str.format on a url template: every occurrence of the version
placeholder is substituted. -/
def replaceTpl (version : String) : List Char → List Char
  | '{' :: 'v' :: 'e' :: 'r' :: 's' :: 'i' :: 'o' :: 'n' :: '}' :: rest =>
    version.data ++ replaceTpl version rest
  | c :: cs => c :: replaceTpl version cs
  | [] => []

/-- Download.url: the url template with the version substituted. -/
def Download.url (d : Download) : String :=
  ⟨replaceTpl d.version d.url_tpl.data⟩

/-- Download.fallback_url: the formatted fallback url when a (truthy)
fallback template is configured, none otherwise. -/
def Download.fallback_url (d : Download) : Option String :=
  match d.fallback_url_tpl with
  | none => none
  | some tpl =>
    if tpl = "" then none
    else some ⟨replaceTpl d.version tpl.data⟩

/-- Download.fetch_file: try download_url on the primary url; on any
exception, if a fallback url is configured (truthy), try download_url on it
once; when no fallback is configured the except block falls through and the
function returns None (modelled as ok none) instead of re-raising.  A
successful download returns the path paired with True. -/
def fetch_file (d : Download) (w : FetchWorld) :
    Except PyErr (Option (String × Bool)) :=
  match w.primary with
  | .ok path => .ok (some (path, true))
  | .error _ =>
    match d.fallback_url with
    | some f =>
      if f = "" then .ok none
      else
        match w.fallback with
        | .ok path => .ok (some (path, true))
        | .error e => .error (.transport e)
    | none => .ok none

/-- verify_checksum: returns False when no checksum was given, raises
RelenvException on a mismatch, and returns True on a match. -/
def verify_checksum (fileMd5 : String) (checksum : Option String) :
    Except PyErr Bool :=
  match checksum with
  | none => .ok false
  | some c =>
    if c = fileMd5 then .ok true
    else .error (.relenvError "md5 checksum verification failed")

/-- Download.validate_md5sum: True unless verify_checksum raised
RelenvException. -/
def validate_md5sum (fileMd5 : String) (md5sum : Option String) : Bool :=
  match verify_checksum fileMd5 md5sum with
  | .ok _ => true
  | .error _ => false

/-- The cached-file check of Download.__call__ when force_download is
unset: the file is considered valid iff a (truthy) checksum is configured,
the file at the download location exists, and validate_md5sum accepts it. -/
def downloadFileIsValid (d : Download) (w : FetchWorld) : Bool :=
  match d.md5sum, w.cachedMd5 with
  | some c, some cm => if c = "" then false else validate_md5sum cm (some c)
  | _, _ => false

/-- Whether Download.__call__ invokes fetch_file (i.e. whether a network
fetch is attempted): always under force_download, and otherwise exactly
when the cached-file check fails. -/
def downloadFetchAttempted (d : Download) (w : FetchWorld)
    (force_download : Bool) : Bool :=
  if force_download then true
  else if downloadFileIsValid d w then false else true

/-- The return value (or escaping exception) of Download.__call__.  Mirrors
the source: when force_download is unset and the cached-file check passes,
no fetch happens and the downloaded flag stays False; otherwise
fetch_file's result is tuple-unpacked (raising TypeError when it returned
None); validation of signature and checksum runs only when a download
happened; the call to self.fetch_signature() passes no argument to a method
that requires one and therefore raises TypeError whenever a signature
template is configured. -/
def downloadResult (d : Download) (w : FetchWorld) (force_download : Bool) :
    Except PyErr Bool :=
  let unpackFetch : Except PyErr Bool :=
    match fetch_file d w with
    | .error e => .error e
    | .ok none => .error .typeError
    | .ok (some (_, dl)) => .ok dl
  let step1 : Except PyErr Bool :=
    if force_download then unpackFetch
    else if downloadFileIsValid d w then .ok false else unpackFetch
  match step1 with
  | .error e => .error e
  | .ok downloaded =>
    if downloaded then
      match d.signature_tpl with
      | some _ => .error .typeError
      | none =>
        match d.md5sum with
        | some c => .ok (validate_md5sum w.fetchedMd5 (some c))
        | none => .ok true
    else .ok true

/-- Download.__call__ with its effect trace: the return value (or escaping
exception) paired with whether a network fetch was attempted. -/
def downloadCall (d : Download) (w : FetchWorld) (force_download : Bool) :
    Except PyErr Bool × Bool :=
  (downloadResult d w force_download, downloadFetchAttempted d w force_download)

/-- The exit status of a multiprocessing worker whose target returned
normally or raised: the return value is discarded, so a worker exits 0
whenever its target returns (whatever the returned value), and nonzero only
when the target raises (including SystemExit(1)). -/
def workerExitCode {α : Type} : Except PyErr α → Int
  | .ok _ => 0
  | .error _ => 1

/-! ## The download phase runner (Builder.download_files, C5) -/

/-- The world of download workers: the polling round at which each worker's
exit status becomes observable, and that exit status. -/
structure DlWorld where
  exitAt : String → Nat
  exitCode : String → Int

/-- The join loop of download_files: repeatedly sweep the remaining
processes, popping each one whose exit status is available and appending
its name to the failure list when that status is nonzero; the loop ends
only when no process remains.  Fuel bounds the number of sweeps; none means
the fuel ran out before every worker terminated. -/
def dfLoop (w : DlWorld) :
    Nat → Nat → List String → List String → Option (List String)
  | 0, _, procs, fails => if procs = [] then some fails else none
  | fuel + 1, t, procs, fails =>
    if procs = [] then some fails
    else
      dfLoop w fuel (t + 1)
        (procs.filter (fun p => !decide (w.exitAt p ≤ t)))
        (fails ++ (procs.filter (fun p => decide (w.exitAt p ≤ t))).filter
          (fun p => decide (w.exitCode p ≠ 0)))

/-- The steps for which download_files spawns a worker: those whose recipe
has a download configured. -/
def spawnedSteps (hasDownload : String → Bool) (steps : List String) :
    List String :=
  steps.filter hasDownload

/-- The observable outcome of download_files: the recorded failures, the
step names written to stderr, and whether sys.exit(1) was invoked. -/
structure DfOutcome where
  fails : List String
  stderrNames : List String
  exitedNonzero : Bool
deriving DecidableEq, Repr

/-- Builder.download_files: spawn one worker per step with a download, join
them all, record each worker failed iff its exit status is nonzero, write
every failing name to stderr and call sys.exit(1) iff any worker failed. -/
def download_files (hasDownload : String → Bool) (steps : List String)
    (w : DlWorld) (fuel : Nat) : Option DfOutcome :=
  match dfLoop w fuel 0 (spawnedSteps hasDownload steps) [] with
  | none => none
  | some fails =>
    some { fails := fails, stderrNames := fails,
           exitedNonzero := !fails.isEmpty }

/-- The outcome of Builder.__call__: abort on prerequisite failures, abort
after the download phase when it exited nonzero, otherwise run the build
phase. -/
inductive CallResult (α : Type) where
  | abortedPrereq (failures : List String)
  | abortedDownload (fails : List String)
  | built (a : α)
deriving DecidableEq, Repr

/-- Builder.__call__ sequencing: check_prereqs, then download_files, and
only if the download phase did not abort is the build phase entered. -/
def builder_call {α : Type} (prereqFailures : List String)
    (hasDownload : String → Bool) (steps : List String) (w : DlWorld)
    (fuel : Nat) (buildPhase : α) : Option (CallResult α) :=
  if prereqFailures = [] then
    match download_files hasDownload steps w fuel with
    | none => none
    | some out =>
      if out.exitedNonzero then some (.abortedDownload out.fails)
      else some (.built buildPhase)
  else some (.abortedPrereq prereqFailures)

/-! ## The step runner's exit paths (Builder.run, C9)

Builder.run saves the caller's working directory, changes into the step's
source (or prefix) directory, writes header lines to the step log, and then
runs the pluggable build action inside try/except/finally: an Exception
raised by the action has its traceback written to the log and is converted
into sys.exit(1) (a SystemExit, which `except Exception` does not catch),
and the finally block restores the working directory, removes the log
handler and closes the log file on every path out of the try. -/

/-- Python exceptions for the step runner: ordinary Exceptions (carrying
their traceback) and SystemExit, which `except Exception` does not catch. -/
inductive PyExc where
  | exception (tb : String)
  | systemExit (code : Int)
deriving DecidableEq, Repr

/-- The process state Builder.run manipulates: the working directory, the
log file handle (open flag and written lines), and whether the logging
handler added by run is still installed. -/
structure RState where
  cwd : String
  logOpen : Bool
  handlerOn : Bool
  log : List String
deriving DecidableEq, Repr

/-- A Python computation over the process state that may raise. -/
def PyM (α : Type) : Type := RState → RState × Except PyExc α

/-- Sequencing that propagates a raised exception. -/
def pySeq {α β : Type} (m : PyM α) (k : α → PyM β) : PyM β := fun s =>
  match m s with
  | (s1, .ok a) => k a s1
  | (s1, .error e) => (s1, .error e)

/-- os.getcwd(). -/
def pyGetcwd : PyM String := fun s => (s, .ok s.cwd)

/-- os.chdir. -/
def pyChdir (dir : String) : PyM Unit := fun s => ({ s with cwd := dir }, .ok ())

/-- logfp.write of one line. -/
def pyLogWrite (line : String) : PyM Unit := fun s =>
  ({ s with log := s.log ++ [line] }, .ok ())

/-- logfp.close(). -/
def pyCloseLog : PyM Unit := fun s => ({ s with logOpen := false }, .ok ())

/-- log.removeHandler(handler). -/
def pyRemoveHandler : PyM Unit := fun s => ({ s with handlerOn := false }, .ok ())

/-- sys.exit(code): raises SystemExit. -/
def pySysExit {α : Type} (code : Int) : PyM α := fun s =>
  (s, .error (.systemExit code))

/-- Write a list of lines to the log. -/
def pyLogWriteAll : List String → PyM Unit
  | [] => fun s => (s, .ok ())
  | l :: ls => pySeq (pyLogWrite l) (fun _ => pyLogWriteAll ls)

/-- Python's try/except Exception/finally: the handler receives the
traceback of an Exception; SystemExit bypasses the handler; the finally
block runs on every path and its outcome (if it raises) replaces the
pending one. -/
def tryExceptFinally {α : Type} (body : PyM α) (handler : String → PyM α)
    (finBlock : PyM Unit) : PyM α := fun s =>
  let r1 := body s
  let r2 : RState × Except PyExc α :=
    match r1 with
    | (s1, .ok a) => (s1, .ok a)
    | (s1, .error (.exception tb)) => handler tb s1
    | (s1, .error (.systemExit c)) => (s1, .error (.systemExit c))
  match finBlock r2.1 with
  | (s3, .ok _) => (s3, r2.2)
  | (s3, .error e) => (s3, .error e)

/-- Builder.run from the point where the caller's working directory is
saved: chdir into the source directory (when the step has a download) or
the prefix directory, write the header lines to the log, then run the build
action under try/except/finally as the source does. -/
def builder_run (sourceDir prefixDir : String) (hasDownload : Bool)
    (headerLines : List String) (build_func : PyM Unit) : PyM Unit :=
  pySeq pyGetcwd (fun cwd =>
    pySeq (pyChdir (if hasDownload then sourceDir else prefixDir)) (fun _ =>
      pySeq (pyLogWriteAll headerLines) (fun _ =>
        tryExceptFinally build_func
          (fun tb => pySeq (pyLogWrite tb) (fun _ => pySysExit 1))
          (pySeq (pyChdir cwd) (fun _ =>
            pySeq pyRemoveHandler (fun _ => pyCloseLog))))))

/-- The state in which the build action starts: after the chdir into the
work directory and the header writes. -/
def runMidState (sourceDir prefixDir : String) (hasDownload : Bool)
    (headerLines : List String) (s0 : RState) : RState :=
  { s0 with cwd := if hasDownload then sourceDir else prefixDir,
            log := s0.log ++ headerLines }

/-! ## The build scheduler (Builder.build, C3 and C4)

Builder.build spawns one worker process per requested step; each worker
polls its own event (the gate) and runs the step's build action once the
gate is set.  The orchestrator joins workers; when a worker terminates it
records a failure iff the exit status is nonzero and then, for every step
whose remaining wait list contains the terminated step: if the termination
was a failure and the dependent is still in the process table, its worker
is terminated; the terminated step is removed from the wait list; and any
step whose wait list is now empty has its gate set.  The model is a small
step machine: worker transitions (observing the gate, finishing the build
action) interleave with orchestrator joins in any order, driven by an
explicit event schedule.  Termination delivery is modelled as immediate. -/

/-- The status of one step's worker process: blocked polling its gate,
running its build action, or exited with an exit code; killed records
whether the orchestrator terminated it, ran whether the build action was
ever invoked.  A worker killed while blocked exits with the SIGTERM status
-15. -/
inductive WStatus where
  | blocked
  | running
  | exited (code : Int) (killed : Bool) (ran : Bool)
deriving DecidableEq, Repr

/-- Whether the build action of a worker in this status was ever invoked. -/
def statRan : WStatus → Bool
  | .blocked => false
  | .running => true
  | .exited _ _ r => r

/-- Whether this status is a nonzero exit. -/
def statFail : WStatus → Bool
  | .exited c _ _ => decide (c ≠ 0)
  | _ => false

/-- Whether the worker has exited. -/
def isExited : WStatus → Bool
  | .exited _ _ _ => true
  | _ => false

/-- A build configuration: the requested steps, each step's declared
wait_on list, and an oracle giving the outcome of each step's build action
(true: the worker would exit 0; false: it would exit 1). -/
structure Sched where
  steps : List String
  deps : String → List String
  buildOk : String → Bool

/-- The dependencies of a step restricted to the requested set: the code
removes from a copy of wait_on every entry not among the requested steps. -/
def inDeps (s : Sched) (n : String) : List String :=
  (s.deps n).filter (fun d => decide (d ∈ s.steps))

/-- Wellformedness of a configuration: declared dependency lists have no
duplicates and no step waits on itself. -/
def SchedWF (s : Sched) : Prop :=
  (∀ m ∈ s.steps, (inDeps s m).Nodup) ∧ (∀ m ∈ s.steps, m ∉ inDeps s m)

instance (s : Sched) : Decidable (SchedWF s) := by
  unfold SchedWF
  infer_instance

/-- The orchestrator-visible state: the events (gates), the remaining wait
lists, the process table (inProc true while a worker is spawned and not yet
joined), the recorded failures, and each worker's status. -/
structure St where
  event : String → Bool
  waits : String → List String
  inProc : String → Bool
  fails : List String
  wstat : String → WStatus

/-- Pointwise update of a table. -/
def upd {α : Type} (f : String → α) (n : String) (v : α) : String → α :=
  fun m => if m = n then v else f m

/-- The state after the spawn loop of Builder.build: every requested step
has a worker (blocked), its wait list is its in-set dependency list, and
its gate is set iff that list is empty. -/
def initSt (s : Sched) : St where
  event := fun n => if n ∈ s.steps then (inDeps s n).isEmpty else false
  waits := fun n => if n ∈ s.steps then inDeps s n else []
  inProc := fun n => if n ∈ s.steps then true else false
  fails := []
  wstat := fun _ => .blocked

/-- Process.terminate on a worker: a blocked or running worker dies with
the SIGTERM exit status; signalling an already-exited worker changes
nothing. -/
def terminate : WStatus → WStatus
  | .blocked => .exited (-15) true false
  | .running => .exited (-15) true true
  | .exited c k r => .exited c k r

/-- Worker transition: a blocked worker whose gate is set starts its build
action. -/
def wstartFn (st : St) (n : String) : Option St :=
  match st.wstat n with
  | .blocked =>
    if st.event n = true then
      some { st with wstat := upd st.wstat n .running }
    else none
  | _ => none

/-- Worker transition: a running worker finishes its build action and exits
0 on success, 1 on failure. -/
def wfinishFn (s : Sched) (st : St) (n : String) : Option St :=
  match st.wstat n with
  | .running =>
    some { st with
      wstat := upd st.wstat n (.exited (if s.buildOk n then 0 else 1) false true) }
  | _ => none

/-- The wait lists after the orchestrator joins n: n is removed from every
requested step's wait list that contains it. -/
def ojWaits (s : Sched) (st : St) (n m : String) : List String :=
  if m ∈ s.steps ∧ n ∈ st.waits m then (st.waits m).erase n else st.waits m

/-- The worker statuses after the orchestrator joins n with exit code c:
when the join was a failure, every requested step whose wait list contains
n and whose worker is still in the process table (n itself was popped
first) has its worker terminated. -/
def ojWstat (s : Sched) (st : St) (n : String) (c : Int) (m : String) : WStatus :=
  if m ∈ s.steps ∧ n ∈ st.waits m ∧ c ≠ 0 ∧ m ≠ n ∧ st.inProc m = true then
    terminate (st.wstat m)
  else st.wstat m

/-- The gates after the orchestrator joins n: every requested step whose
wait list has become empty has its gate set (the source checks is_set
first, which does not change the resulting value). -/
def ojEvent (s : Sched) (st : St) (n m : String) : Bool :=
  if m ∈ s.steps ∧ ojWaits s st n m = [] then true else st.event m

/-- Orchestrator transition: join worker n once it has exited.  The worker
is popped from the process table, recorded as a failure iff its exit code
is nonzero, and the dependent bookkeeping of Builder.build's join loop is
applied. -/
def ojoinFn (s : Sched) (st : St) (n : String) : Option St :=
  if st.inProc n = true then
    match st.wstat n with
    | .exited c _ _ =>
      some { event := ojEvent s st n, waits := ojWaits s st n,
             inProc := upd st.inProc n false,
             fails := if c = 0 then st.fails else st.fails ++ [n],
             wstat := ojWstat s st n c }
    | _ => none
  else none

/-- A scheduler event: a worker observes its gate, a worker finishes its
build action, or the orchestrator joins an exited worker. -/
inductive Ev where
  | start (n : String)
  | finish (n : String)
  | join (n : String)
deriving DecidableEq, Repr

/-- One transition of the scheduler machine. -/
def stepFn (s : Sched) (st : St) : Ev → Option St
  | .start n => wstartFn st n
  | .finish n => wfinishFn s st n
  | .join n => ojoinFn s st n

/-- Run a schedule of events; none when some event's precondition fails. -/
def runEvs (s : Sched) : St → List Ev → Option St
  | st, [] => some st
  | st, e :: es =>
    match stepFn s st e with
    | some st2 => runEvs s st2 es
    | none => none

/-- A state reachable from the spawn state by some schedule. -/
def ReachableSt (s : Sched) (st : St) : Prop :=
  ∃ evs, runEvs s (initSt s) evs = some st

/-- Transitive dependency: DependsOn s F m holds when m depends on F
through a chain of in-set dependency edges. -/
inductive DependsOn (s : Sched) (F : String) : String → Prop where
  | direct {m : String} : F ∈ inDeps s m → DependsOn s F m
  | tail {d m : String} : DependsOn s F d → d ∈ inDeps s m → DependsOn s F m

/-- A status a step untouched by any failure can have: still blocked, still
running, or exited cleanly after running its build action. -/
def okStatus (w : WStatus) : Prop :=
  w = .blocked ∨ w = .running ∨ w = .exited 0 false true

/-- The scheduler-state invariant maintained by every transition of the
machine (assuming a wellformed configuration). -/
structure SchedInv (s : Sched) (st : St) : Prop where
  event_empty : ∀ m, st.event m = true → st.waits m = []
  empty_event : ∀ m, m ∈ s.steps → st.waits m = [] → st.event m = true
  waits_nodup : ∀ m, (st.waits m).Nodup
  waits_sub : ∀ m d, d ∈ st.waits m → d ∈ inDeps s m
  waits_step : ∀ m d, d ∈ st.waits m → m ∈ s.steps
  waits_proc : ∀ m d, d ∈ st.waits m → st.inProc d = true
  waits_full : ∀ m d, m ∈ s.steps → d ∈ inDeps s m → st.inProc d = true →
    d ∈ st.waits m
  ran_event : ∀ m, statRan (st.wstat m) = true → st.event m = true
  joined_exited : ∀ m, m ∈ s.steps → st.inProc m = false →
    isExited (st.wstat m) = true
  fails_iff : ∀ m, m ∈ st.fails ↔
    (m ∈ s.steps ∧ st.inProc m = false ∧ statFail (st.wstat m) = true)
  killed_shape : ∀ m c k, st.wstat m = .exited c k false →
    st.wstat m = .exited (-15) true false
  killed : ∀ m, m ∈ s.steps →
    (∃ d, d ∈ inDeps s m ∧ st.inProc d = false ∧ statFail (st.wstat d) = true) →
    st.wstat m = .exited (-15) true false
  nonstep_stat : ∀ m, m ∉ s.steps → st.wstat m = .blocked
  nonstep_event : ∀ m, m ∉ s.steps → st.event m = false
  nonstep_proc : ∀ m, m ∉ s.steps → st.inProc m = false

/-! ## Concrete instances used by the theorems and witnesses below -/

/-- Two steps, b waiting on a, whose build action fails (C3
counterexample). -/
def c3Sched : Sched :=
  { steps := ["a", "b"], deps := fun n => if n = "b" then ["a"] else [],
    buildOk := fun _ => false }

/-- The state after a starts and finishes (with a failing build action). -/
def c3St1 : St :=
  (runEvs c3Sched (initSt c3Sched) [Ev.start "a", Ev.finish "a"]).getD
    (initSt c3Sched)

/-- The state after the orchestrator joins the failed a: b is terminated
and, in the same join, b's gate is set. -/
def c3St2 : St := (stepFn c3Sched c3St1 (Ev.join "a")).getD c3St1

/-- Two steps, b waiting on a, with succeeding build actions (C3 witness). -/
def c3wSched : Sched :=
  { steps := ["a", "b"], deps := fun n => if n = "b" then ["a"] else [],
    buildOk := fun _ => true }

/-- The state after a runs, succeeds and is joined. -/
def c3wSt : St :=
  (runEvs c3wSched (initSt c3wSched)
    [Ev.start "a", Ev.finish "a", Ev.join "a"]).getD (initSt c3wSched)

/-- The end-to-end scenario of the spec: c waits on a and b, a succeeds and
b fails (C4 witness). -/
def c4Sched : Sched :=
  { steps := ["a", "b", "c"],
    deps := fun n => if n = "c" then ["a", "b"] else [],
    buildOk := fun n => decide (n ≠ "b") }

/-- A complete schedule for the scenario: both roots run, b fails and is
joined (terminating c), a is joined (setting c's gate), the dead c is
joined. -/
def c4Evs : List Ev :=
  [Ev.start "a", Ev.start "b", Ev.finish "a", Ev.finish "b",
   Ev.join "b", Ev.join "a", Ev.join "c"]

/-- The final state of the scenario. -/
def c4Stf : St :=
  (runEvs c4Sched (initSt c4Sched) c4Evs).getD (initSt c4Sched)

/-- A download with a fallback url and no checksum (C2). -/
def c2Dl : Download :=
  { name := "python", url_tpl := "https://example.org/{version}/pkg.tar.xz",
    fallback_url_tpl := some "https://fb.example.org/{version}/pkg.tar.xz",
    signature_tpl := none, destination := "/cache", version := "3.10.9",
    md5sum := none }

/-- The same download with no fallback configured (C2). -/
def c2DlNoFallback : Download := { c2Dl with fallback_url_tpl := none }

/-- A world in which the primary fetch raises and the fallback succeeds. -/
def c2FailWorld : FetchWorld :=
  { primary := .error "connection reset", fallback := .ok "/cache/pkg.tar.xz",
    cachedMd5 := none, fetchedMd5 := "aaa" }

/-- A world in which both the primary and the fallback fetch raise. -/
def c2BothFailWorld : FetchWorld :=
  { c2FailWorld with fallback := .error "fallback reset" }

/-- A world in which the primary fetch succeeds. -/
def c2OkWorld : FetchWorld :=
  { c2FailWorld with primary := .ok "/cache/pkg.tar.xz" }

/-- A download with a configured checksum and no signature (C1). -/
def c1Dl : Download :=
  { name := "openssl",
    url_tpl := "https://example.org/{version}/openssl.tar.gz",
    fallback_url_tpl := none, signature_tpl := none, destination := "/cache",
    version := "1.1.1", md5sum := some "aaa" }

/-- A world in which the fetch succeeds but the downloaded file's md5 does
not match the configured checksum (C1). -/
def c1World : FetchWorld :=
  { primary := .ok "/cache/openssl.tar.gz", fallback := .error "unused",
    cachedMd5 := none, fetchedMd5 := "bbb" }

/-- The download-worker world induced by the failing validation of C1: the
worker's exit status is the one its target's outcome produces. -/
def c1DlWorld : DlWorld :=
  { exitAt := fun _ => 0,
    exitCode := fun _ => workerExitCode (downloadCall c1Dl c1World false).1 }

/-- A download with a configured checksum (C6 witness). -/
def c6Dl : Download :=
  { name := "sqlite",
    url_tpl := "https://example.org/{version}/sqlite.tar.gz",
    fallback_url_tpl := none, signature_tpl := none, destination := "/cache",
    version := "3450000", md5sum := some "abc" }

/-- A world whose cached file's md5 matches the configured checksum. -/
def c6HitWorld : FetchWorld :=
  { primary := .ok "/cache/sqlite.tar.gz", fallback := .error "unused",
    cachedMd5 := some "abc", fetchedMd5 := "abc" }

/-- A world whose cached file's md5 mismatches the configured checksum. -/
def c6MissWorld : FetchWorld := { c6HitWorld with cachedMd5 := some "zzz" }

/-- A world with no cached file. -/
def c6AbsentWorld : FetchWorld := { c6HitWorld with cachedMd5 := none }

/-- Steps for the C5 witness; the step without a download spawns no worker. -/
def c5Steps : List String := ["python", "openssl", "relenv"]

/-- Download configuration for the C5 witness. -/
def c5HasDl : String → Bool := fun n => n != "relenv"

/-- Worker world for the C5 witness: one failing worker. -/
def c5World : DlWorld :=
  { exitAt := fun _ => 0, exitCode := fun n => if n = "openssl" then 1 else 0 }

/-- A build action that raises an Exception (C9 witness). -/
def c9Boom : PyM Unit := fun s => (s, .error (.exception "Traceback: boom"))

/-- An initial process state (C9 witness). -/
def c9S0 : RState := { cwd := "/work", logOpen := true, handlerOn := true, log := [] }

/-! ## Theorems for C7 and C10 -/

/-- C7: create_archive adds to the archive exactly those files under the
prefix whose "/"-prefixed path relative to the prefix matches at least one
allow-list glob pattern, excluding all other files; in particular, with
allow-list ["*.so", "/bin/python*"] and a prefix containing lib/x.so,
bin/python3 and lib/x.o, the first two files are included and the third is
excluded. -/
theorem C7_create_archive_allowlist :
    (∀ (files globs : List String) (f : String),
      f ∈ create_archive files globs ↔
        f ∈ files ∧ ∃ g, g ∈ globs ∧ fnmatch ("/" ++ f) g = true)
  ∧ create_archive ["lib/x.so", "bin/python3", "lib/x.o"]
      ["*.so", "/bin/python*"] = ["lib/x.so", "bin/python3"] := by
  constructor
  · intro files globs f
    simp [create_archive, List.mem_filter, List.any_eq_true]
  · decide

/-- C10: for every Dirs object, __setstate__ applied to the result of
__getstate__ restores the name, arch, root, build, downloads, logs, sources
and tmpbuild attributes to equal values, but never sets the version
attribute; the reconstructed Dirs has no version field, and the prefix
property (which depends on version) is therefore undefined on it. -/
theorem C10_dirs_pickle_roundtrip_drops_version (d : Dirs) (plat : String) :
    (dirsSetstate (dirsGetstate d)).name = d.name
  ∧ (dirsSetstate (dirsGetstate d)).arch = d.arch
  ∧ (dirsSetstate (dirsGetstate d)).root = d.root
  ∧ (dirsSetstate (dirsGetstate d)).build = d.build
  ∧ (dirsSetstate (dirsGetstate d)).downloads = d.downloads
  ∧ (dirsSetstate (dirsGetstate d)).logs = d.logs
  ∧ (dirsSetstate (dirsGetstate d)).sources = d.sources
  ∧ (dirsSetstate (dirsGetstate d)).tmpbuild = d.tmpbuild
  ∧ (dirsSetstate (dirsGetstate d)).version = none
  ∧ dirsPrefixPath plat (dirsSetstate (dirsGetstate d)) = none :=
  ⟨rfl, rfl, rfl, rfl, rfl, rfl, rfl, rfl, rfl, rfl⟩

/-! ## Helper lemmas -/

/-- Writing a list of lines to the log appends them and raises nothing. -/
theorem pyLogWriteAll_run (ls : List String) (s : RState) :
    pyLogWriteAll ls s = ({ s with log := s.log ++ ls }, .ok ()) := by
  induction ls generalizing s with
  | nil => simp [pyLogWriteAll]
  | cons l ls ih => simp [pyLogWriteAll, pySeq, pyLogWrite, ih]

/-- Membership in an insertion. -/
theorem insertSorted_mem {α : Type} (le : α → α → Bool) (a x : α)
    (l : List α) : x ∈ insertSorted le a l ↔ x = a ∨ x ∈ l := by
  induction l with
  | nil => simp [insertSorted]
  | cons y ys ih =>
    simp only [insertSorted]
    split
    · simp
    · simp only [List.mem_cons, ih]
      tauto

/-- Sorting does not change membership. -/
theorem sortL_mem {α : Type} (le : α → α → Bool) (x : α) (l : List α) :
    x ∈ sortL le l ↔ x ∈ l := by
  induction l with
  | nil => simp [sortL]
  | cons y ys ih => simp [sortL, insertSorted_mem, ih]

/-- A "Found new version" line is printed exactly for the versions that
compare greater than the current one. -/
theorem compare_versions_newer_mem {V : Type} (gt : V → V → Option Bool)
    (cur : V) (vs : List V) (v : V) :
    VMsg.newer v ∈ compare_versions gt cur vs ↔
      v ∈ vs ∧ gt v cur = some true := by
  simp only [compare_versions, List.mem_filterMap]
  constructor
  · rintro ⟨a, ha, hm⟩
    rcases hg : gt a cur with _ | b
    · rw [hg] at hm; simp at hm
    · rcases b with _ | _
      · rw [hg] at hm; simp at hm
      · rw [hg] at hm
        simp only [Option.some.injEq, VMsg.newer.injEq] at hm
        subst hm
        exact ⟨ha, hg⟩
  · rintro ⟨hv, hg⟩
    exact ⟨v, hv, by rw [hg]⟩

/-- An "Unable to compare" line is printed exactly for the versions whose
comparison with the current one raises TypeError. -/
theorem compare_versions_unable_mem {V : Type} (gt : V → V → Option Bool)
    (cur : V) (vs : List V) (v : V) :
    VMsg.unable v ∈ compare_versions gt cur vs ↔
      v ∈ vs ∧ gt v cur = none := by
  simp only [compare_versions, List.mem_filterMap]
  constructor
  · rintro ⟨a, ha, hm⟩
    rcases hg : gt a cur with _ | b
    · rw [hg] at hm
      simp only [Option.some.injEq, VMsg.unable.injEq] at hm
      subst hm
      exact ⟨ha, hg⟩
    · rcases b with _ | _
      · rw [hg] at hm; simp at hm
      · rw [hg] at hm; simp at hm
  · rintro ⟨hv, hg⟩
    exact ⟨v, hv, by rw [hg]⟩

/-- The join loop terminates once every remaining worker's exit round is
within the fuel. -/
theorem dfLoop_total (w : DlWorld) :
    ∀ (fuel t : Nat) (procs fails : List String),
      (∀ p ∈ procs, t ≤ w.exitAt p) →
      (∀ p ∈ procs, w.exitAt p < t + fuel) →
      ∃ r, dfLoop w fuel t procs fails = some r := by
  intro fuel
  induction fuel with
  | zero =>
    intro t procs fails hlo hhi
    match procs with
    | [] => exact ⟨fails, rfl⟩
    | p :: ps =>
      have h1 := hlo p (by simp)
      have h2 := hhi p (by simp)
      omega
  | succ fuel ih =>
    intro t procs fails hlo hhi
    by_cases hp : procs = []
    · subst hp
      exact ⟨fails, by simp [dfLoop]⟩
    · simp only [dfLoop, if_neg hp]
      apply ih
      · intro p hp2
        rw [List.mem_filter] at hp2
        have h2 := hp2.2
        simp only [Bool.not_eq_true', decide_eq_false_iff_not] at h2
        omega
      · intro p hp2
        rw [List.mem_filter] at hp2
        have := hhi p hp2.1
        omega

/-- The failure list collected by the join loop contains exactly the
incoming failures plus the workers with nonzero exit status. -/
theorem dfLoop_mem (w : DlWorld) :
    ∀ (fuel t : Nat) (procs fails r : List String),
      dfLoop w fuel t procs fails = some r →
      ∀ x, x ∈ r ↔ x ∈ fails ∨ (x ∈ procs ∧ w.exitCode x ≠ 0) := by
  intro fuel
  induction fuel with
  | zero =>
    intro t procs fails r h x
    simp only [dfLoop] at h
    split at h
    · rename_i hp
      cases h
      simp [hp]
    · cases h
  | succ fuel ih =>
    intro t procs fails r h x
    simp only [dfLoop] at h
    split at h
    · rename_i hp
      cases h
      simp [hp]
    · rename_i hp
      have hx := ih _ _ _ _ h x
      rw [hx]
      simp only [List.mem_append, List.mem_filter, Bool.not_eq_true',
        decide_eq_false_iff_not, decide_eq_true_eq]
      by_cases hle : w.exitAt x ≤ t <;> tauto

/-! ## Theorems for the download subsystem (C1, C2, C6) and runner (C5) -/

/-- C2: Download.fetch_file downloads the primary URL and on a transport
failure retries once against the configured fallback, returning on success
the local path paired with True.  The claim that with no fallback
configured the failure propagates to the caller is refuted by the code: the
except block catches the exception and falls through, so fetch_file returns
None (and the caller's tuple unpacking then raises TypeError), instead of
re-raising the transport error. -/
theorem C2_fetch_file_swallows_failure_without_fallback :
    fetch_file c2DlNoFallback c2FailWorld = .ok none
  ∧ fetch_file c2Dl c2FailWorld = .ok (some ("/cache/pkg.tar.xz", true))
  ∧ fetch_file c2Dl c2BothFailWorld = .error (.transport "fallback reset")
  ∧ fetch_file c2DlNoFallback c2OkWorld =
      .ok (some ("/cache/pkg.tar.xz", true)) :=
  ⟨rfl, rfl, rfl, rfl⟩

/-- C6: when force_download is unset, a checksum is configured, and the
destination file already exists with a matching md5 checksum,
Download.__call__ performs no network fetch and returns success; when the
cached file's checksum mismatches or the file is absent, a fetch is
attempted. -/
theorem C6_cached_checksum_skips_fetch (d : Download) (w : FetchWorld)
    (c : String) (hmd5 : d.md5sum = some c) (hc : c ≠ "") :
    (w.cachedMd5 = some c → downloadCall d w false = (.ok true, false))
  ∧ (w.cachedMd5 = none → (downloadCall d w false).2 = true)
  ∧ (∀ m, w.cachedMd5 = some m → m ≠ c →
      (downloadCall d w false).2 = true) := by
  refine ⟨?_, ?_, ?_⟩
  · intro hcm
    simp [downloadCall, downloadResult, downloadFetchAttempted,
      downloadFileIsValid, hmd5, hcm, hc, validate_md5sum, verify_checksum]
  · intro hcm
    simp [downloadCall, downloadFetchAttempted, downloadFileIsValid, hmd5, hcm]
  · intro m hcm hmc
    have hcm2 : ¬ c = m := fun h => hmc h.symm
    simp [downloadCall, downloadFetchAttempted, downloadFileIsValid, hmd5,
      hcm, hc, validate_md5sum, verify_checksum, hcm2]

/-- C6 witness: concrete cache hit, cache miss and absent-file runs. -/
theorem C6_cached_checksum_skips_fetch_witness :
    c6Dl.md5sum = some "abc" ∧ ("abc" : String) ≠ ""
  ∧ downloadCall c6Dl c6HitWorld false = (.ok true, false)
  ∧ (downloadCall c6Dl c6AbsentWorld false).2 = true
  ∧ (downloadCall c6Dl c6MissWorld false).2 = true :=
  ⟨rfl, by decide,
   (C6_cached_checksum_skips_fetch c6Dl c6HitWorld "abc" rfl (by decide)).1 rfl,
   (C6_cached_checksum_skips_fetch c6Dl c6AbsentWorld "abc" rfl (by decide)).2.1 rfl,
   (C6_cached_checksum_skips_fetch c6Dl c6MissWorld "abc" rfl (by decide)).2.2
     "zzz" rfl (by decide)⟩

/-- C1: the claim says a checksum validation failure makes the download
worker exit nonzero and aborts the build.  The code refutes it: on a
checksum mismatch Download.__call__ returns False, but a multiprocessing
target's return value is discarded, so the worker exits 0, download_files
records no failure, and Builder.__call__ proceeds into the build phase. -/
theorem C1_checksum_failure_worker_exits_zero :
    downloadCall c1Dl c1World false = (.ok false, true)
  ∧ workerExitCode (downloadCall c1Dl c1World false).1 = 0
  ∧ builder_call [] (fun _ => true) ["openssl"] c1DlWorld 1 () =
      some (.built ()) :=
  ⟨rfl, rfl, rfl⟩

/-- C5: Builder.download_files joins every spawned download worker, records
a worker as failed iff its exit status is nonzero, writes every failing
step's name to stderr and exits nonzero iff at least one worker failed, in
which case Builder.__call__ never enters the build phase; with no failure
the build phase runs. -/
theorem C5_download_files_all_or_nothing (hasDownload : String → Bool)
    (steps : List String) (w : DlWorld) (fuel : Nat)
    (hfuel : ∀ p ∈ spawnedSteps hasDownload steps, w.exitAt p < fuel) :
    ∃ out, download_files hasDownload steps w fuel = some out
      ∧ (∀ x, x ∈ out.fails ↔
          (x ∈ steps ∧ hasDownload x = true ∧ w.exitCode x ≠ 0))
      ∧ out.stderrNames = out.fails
      ∧ (out.exitedNonzero = true ↔ out.fails ≠ [])
      ∧ (∀ (α : Type) (buildPhase : α),
          builder_call [] hasDownload steps w fuel buildPhase =
            if out.exitedNonzero = true then
              some (CallResult.abortedDownload out.fails)
            else some (CallResult.built buildPhase)) := by
  obtain ⟨r, hr⟩ := dfLoop_total w fuel 0 (spawnedSteps hasDownload steps) []
    (fun p _ => Nat.zero_le _) (by simpa using hfuel)
  refine ⟨{ fails := r, stderrNames := r, exitedNonzero := !r.isEmpty },
    ?_, ?_, rfl, ?_, ?_⟩
  · simp [download_files, hr]
  · intro x
    have hx := dfLoop_mem w fuel 0 _ _ _ hr x
    simp only [List.not_mem_nil, false_or, spawnedSteps, List.mem_filter] at hx
    rw [hx]
    tauto
  · simp
  · intro α b
    simp [builder_call, download_files, hr]

/-- C5 witness: three steps, one without a download, one failing worker. -/
theorem C5_download_files_all_or_nothing_witness :
    (∀ p ∈ spawnedSteps c5HasDl c5Steps, c5World.exitAt p < 1)
  ∧ (∃ out, download_files c5HasDl c5Steps c5World 1 = some out
      ∧ (∀ x, x ∈ out.fails ↔
          (x ∈ c5Steps ∧ c5HasDl x = true ∧ c5World.exitCode x ≠ 0))
      ∧ out.stderrNames = out.fails
      ∧ (out.exitedNonzero = true ↔ out.fails ≠ [])
      ∧ (∀ (α : Type) (buildPhase : α),
          builder_call [] c5HasDl c5Steps c5World 1 buildPhase =
            if out.exitedNonzero = true then
              some (CallResult.abortedDownload out.fails)
            else some (CallResult.built buildPhase))) :=
  ⟨by decide,
   C5_download_files_all_or_nothing c5HasDl c5Steps c5World 1 (by decide)⟩

/-! ## Theorem for the version check (C8) -/

/-- C8: compare_versions reports exactly the discovered versions strictly
greater than the current one and reports incomparable pairs as unable to
compare without crashing; check_files parses strictly first, silently
dropping unparseable discovered strings such as "bogus", and falls back to
LooseVersion values when the current pinned version fails strict parsing;
for current version 3.10.9 and discovered versions 3.10.9, 3.10.10 and
bogus it reports exactly 3.10.10. -/
theorem C8_check_version_reporting :
    (∀ (V : Type) (gt : V → V → Option Bool) (cur : V) (vs : List V) (v : V),
      (VMsg.newer v ∈ compare_versions gt cur vs ↔
        v ∈ vs ∧ gt v cur = some true)
      ∧ (VMsg.unable v ∈ compare_versions gt cur vs ↔
        v ∈ vs ∧ gt v cur = none))
  ∧ (∀ (cur : String) (disc : List String) (c p : List Nat),
      parseStrict cur = some c →
      (VMsg.newer (PyVersion.strict p) ∈ check_files_msgs cur disc ↔
        (∃ s0, s0 ∈ disc ∧ parseStrict s0 = some p) ∧ cmpRelease p c = .gt))
  ∧ (∀ (cur : String) (disc : List String) (v : PyVersion),
      parseStrict cur = none → VMsg.newer v ∈ check_files_msgs cur disc →
      ∃ s0, s0 ∈ disc ∧ v = PyVersion.loose s0)
  ∧ check_files_msgs "3.10.9" ["3.10.9", "3.10.10", "bogus"] =
      [VMsg.newer (PyVersion.strict [3, 10, 10])] := by
  refine ⟨?_, ?_, ?_, by decide⟩
  · intro V gt cur vs v
    exact ⟨compare_versions_newer_mem gt cur vs v,
           compare_versions_unable_mem gt cur vs v⟩
  · intro cur disc c p hcur
    simp only [check_files_msgs, hcur]
    rw [compare_versions_newer_mem, sortL_mem]
    simp only [List.mem_filterMap, Option.map_eq_some', pvGt,
      Option.some.injEq, PyVersion.strict.injEq]
    simp only [exists_eq_right, and_congr_right_iff]
    intro hx
    cases cmpRelease p c <;> decide
  · intro cur disc v hcur hmem
    simp only [check_files_msgs, hcur] at hmem
    rw [compare_versions_newer_mem, sortL_mem] at hmem
    rcases hmem with ⟨hv, _⟩
    rcases List.mem_map.mp hv with ⟨s0, hs0, hsv⟩
    exact ⟨s0, hs0, hsv.symm⟩

/-- C8 witness: the generic reporting law applied at the concrete strict
run, together with the strict-branch characterization at 3.10.10. -/
theorem C8_check_version_reporting_witness :
    parseStrict "3.10.9" = some [3, 10, 9]
  ∧ (VMsg.newer (PyVersion.strict [3, 10, 10]) ∈
      check_files_msgs "3.10.9" ["3.10.9", "3.10.10", "bogus"] ↔
      (∃ s0, s0 ∈ ["3.10.9", "3.10.10", "bogus"] ∧
        parseStrict s0 = some [3, 10, 10])
      ∧ cmpRelease [3, 10, 10] [3, 10, 9] = .gt) :=
  ⟨by decide,
   C8_check_version_reporting.2.1 "3.10.9" ["3.10.9", "3.10.10", "bogus"]
     [3, 10, 9] [3, 10, 10] (by decide)⟩

/-! ## Theorem for the step runner (C9) -/

/-- C9: Builder.run restores the caller's working directory, removes the
log handler and closes the log file handle on every exit path out of the
build action (normal return, failure, fault), and an unhandled fault raised
by the build action has its traceback written to the log before the step
exits via sys.exit(1), which the except-Exception clause does not catch. -/
theorem C9_run_restores_state_all_paths (sourceDir prefixDir : String)
    (hasDownload : Bool) (headerLines : List String) (build_func : PyM Unit)
    (s0 : RState) :
    ((builder_run sourceDir prefixDir hasDownload headerLines build_func s0).1.cwd
        = s0.cwd
      ∧ (builder_run sourceDir prefixDir hasDownload headerLines build_func s0).1.logOpen
        = false
      ∧ (builder_run sourceDir prefixDir hasDownload headerLines build_func s0).1.handlerOn
        = false)
  ∧ (∀ s1 tb,
      build_func (runMidState sourceDir prefixDir hasDownload headerLines s0)
        = (s1, .error (.exception tb)) →
      builder_run sourceDir prefixDir hasDownload headerLines build_func s0 =
        ({ s1 with cwd := s0.cwd, logOpen := false, handlerOn := false,
                   log := s1.log ++ [tb] },
         .error (.systemExit 1)))
  ∧ (∀ s1 a,
      build_func (runMidState sourceDir prefixDir hasDownload headerLines s0)
        = (s1, .ok a) →
      builder_run sourceDir prefixDir hasDownload headerLines build_func s0 =
        ({ s1 with cwd := s0.cwd, logOpen := false, handlerOn := false },
         .ok a)) := by
  have hrun : builder_run sourceDir prefixDir hasDownload headerLines build_func s0
      = tryExceptFinally build_func
          (fun tb => pySeq (pyLogWrite tb) (fun _ => pySysExit 1))
          (pySeq (pyChdir s0.cwd)
            (fun _ => pySeq pyRemoveHandler (fun _ => pyCloseLog)))
          (runMidState sourceDir prefixDir hasDownload headerLines s0) := by
    simp [builder_run, pySeq, pyGetcwd, pyChdir, pyLogWriteAll_run, runMidState]
  refine ⟨?_, ?_, ?_⟩
  · rcases hpr : build_func (runMidState sourceDir prefixDir hasDownload headerLines s0)
      with ⟨s1, r1⟩
    rw [hrun]
    rcases r1 with e | a
    · rcases e with tb | code
      · simp [tryExceptFinally, hpr, pySeq, pyChdir, pyRemoveHandler,
          pyCloseLog, pyLogWrite, pySysExit]
      · simp [tryExceptFinally, hpr, pySeq, pyChdir, pyRemoveHandler, pyCloseLog]
    · simp [tryExceptFinally, hpr, pySeq, pyChdir, pyRemoveHandler, pyCloseLog]
  · intro s1 tb h
    rw [hrun]
    simp [tryExceptFinally, h, pySeq, pyChdir, pyRemoveHandler, pyCloseLog,
      pyLogWrite, pySysExit]
  · intro s1 a h
    rw [hrun]
    simp [tryExceptFinally, h, pySeq, pyChdir, pyRemoveHandler, pyCloseLog]

/-- C9 witness: a build action that raises is logged, converted into
sys.exit(1), and still has the working directory restored and the log
closed. -/
theorem C9_run_restores_state_all_paths_witness :
    c9Boom (runMidState "/src" "/prefix" true ["hdr"] c9S0) =
      (runMidState "/src" "/prefix" true ["hdr"] c9S0,
       .error (.exception "Traceback: boom"))
  ∧ builder_run "/src" "/prefix" true ["hdr"] c9Boom c9S0 =
      ({ cwd := "/work", logOpen := false, handlerOn := false,
         log := ["hdr", "Traceback: boom"] },
       .error (.systemExit 1)) :=
  ⟨rfl, by
    have h := (C9_run_restores_state_all_paths "/src" "/prefix" true ["hdr"]
      c9Boom c9S0).2.1 (runMidState "/src" "/prefix" true ["hdr"] c9S0)
      "Traceback: boom" rfl
    simpa [runMidState, c9S0] using h⟩

/-! ## Scheduler lemmas -/

/-- upd at the updated point. -/
theorem upd_eq {α : Type} (f : String → α) (n : String) (v : α) :
    upd f n v n = v := by simp [upd]

/-- upd elsewhere. -/
theorem upd_ne {α : Type} (f : String → α) (n m : String) (v : α)
    (h : m ≠ n) : upd f n v m = f m := by simp [upd, h]

/-- In-set dependencies are requested steps. -/
theorem inDeps_mem_steps {s : Sched} {m d : String} (h : d ∈ inDeps s m) :
    d ∈ s.steps := by
  simp only [inDeps, List.mem_filter, decide_eq_true_eq] at h
  exact h.2

/-- A terminated worker whose build action had been invoked had it invoked
before the termination. -/
theorem terminate_ran {w : WStatus} (h : statRan (terminate w) = true) :
    statRan w = true := by
  cases w <;> simp_all [terminate, statRan]

/-- Characterization of a successful start transition. -/
theorem wstartFn_eq {st : St} {n : String} {st2 : St}
    (h : wstartFn st n = some st2) :
    st.wstat n = .blocked ∧ st.event n = true ∧
    st2 = { st with wstat := upd st.wstat n .running } := by
  unfold wstartFn at h
  split at h
  · rename_i hw
    split at h
    · rename_i he
      cases h
      exact ⟨hw, he, rfl⟩
    · cases h
  · cases h

/-- Characterization of a successful finish transition. -/
theorem wfinishFn_eq {s : Sched} {st : St} {n : String} {st2 : St}
    (h : wfinishFn s st n = some st2) :
    st.wstat n = .running ∧
    st2 = { st with
      wstat := upd st.wstat n
        (.exited (if s.buildOk n then 0 else 1) false true) } := by
  unfold wfinishFn at h
  split at h
  · rename_i hw
    cases h
    exact ⟨hw, rfl⟩
  · cases h

/-- Characterization of a successful join transition. -/
theorem ojoinFn_eq {s : Sched} {st : St} {n : String} {st2 : St}
    (h : ojoinFn s st n = some st2) :
    st.inProc n = true ∧ ∃ c k r, st.wstat n = .exited c k r ∧
      st2 = { event := ojEvent s st n, waits := ojWaits s st n,
              inProc := upd st.inProc n false,
              fails := if c = 0 then st.fails else st.fails ++ [n],
              wstat := ojWstat s st n c } := by
  unfold ojoinFn at h
  split at h
  · rename_i hp
    split at h
    · rename_i c k r hw
      cases h
      exact ⟨hp, c, k, r, hw, rfl⟩
    · cases h
  · cases h

/-- Gates only ever get set in a join. -/
theorem ojEvent_mono {s : Sched} {st : St} {n m : String}
    (h : st.event m = true) : ojEvent s st n m = true := by
  unfold ojEvent
  split
  · rfl
  · exact h

/-- Gates are monotone under every transition. -/
theorem stepFn_event_mono {s : Sched} {st : St} {e : Ev} {st2 : St}
    (h : stepFn s st e = some st2) (m : String) (hm : st.event m = true) :
    st2.event m = true := by
  cases e with
  | start n =>
    obtain ⟨_, _, rfl⟩ := wstartFn_eq h
    exact hm
  | finish n =>
    obtain ⟨_, rfl⟩ := wfinishFn_eq h
    exact hm
  | join n =>
    obtain ⟨_, c, k, r, _, rfl⟩ := ojoinFn_eq h
    exact ojEvent_mono hm

/-- A gate that flips from unset to set does so exactly when the step's
remaining wait list has become empty. -/
theorem stepFn_event_set_waits {s : Sched} {st : St} {e : Ev} {st2 : St}
    (h : stepFn s st e = some st2) (m : String) (h0 : st.event m = false)
    (h1 : st2.event m = true) : st2.waits m = [] := by
  cases e with
  | start n =>
    obtain ⟨_, _, rfl⟩ := wstartFn_eq h
    rw [h1] at h0
    cases h0
  | finish n =>
    obtain ⟨_, rfl⟩ := wfinishFn_eq h
    rw [h1] at h0
    cases h0
  | join n =>
    obtain ⟨_, c, k, r, _, rfl⟩ := ojoinFn_eq h
    show ojWaits s st n m = []
    have h1' : ojEvent s st n m = true := h1
    unfold ojEvent at h1'
    split at h1'
    · rename_i hc
      exact hc.2
    · rw [h1'] at h0
      cases h0

/-- The spawn state satisfies the invariant. -/
theorem inv_init (s : Sched) (hwf : SchedWF s) : SchedInv s (initSt s) := by
  refine
    { event_empty := ?_, empty_event := ?_, waits_nodup := ?_,
      waits_sub := ?_, waits_step := ?_, waits_proc := ?_, waits_full := ?_,
      ran_event := ?_, joined_exited := ?_, fails_iff := ?_,
      killed_shape := ?_, killed := ?_, nonstep_stat := ?_,
      nonstep_event := ?_, nonstep_proc := ?_ }
  · intro m h
    show (if m ∈ s.steps then inDeps s m else []) = []
    by_cases hm : m ∈ s.steps
    · have h' : (if m ∈ s.steps then (inDeps s m).isEmpty else false) = true := h
      rw [if_pos hm] at h'
      rw [if_pos hm]
      exact List.isEmpty_iff.mp h'
    · rw [if_neg hm]
  · intro m hm hW
    show (if m ∈ s.steps then (inDeps s m).isEmpty else false) = true
    have hW' : (if m ∈ s.steps then inDeps s m else []) = [] := hW
    rw [if_pos hm] at hW'
    rw [if_pos hm, hW']
    rfl
  · intro m
    show (if m ∈ s.steps then inDeps s m else []).Nodup
    by_cases hm : m ∈ s.steps
    · rw [if_pos hm]; exact hwf.1 m hm
    · rw [if_neg hm]; exact List.nodup_nil
  · intro m d hd
    have hd' : d ∈ (if m ∈ s.steps then inDeps s m else []) := hd
    by_cases hm : m ∈ s.steps
    · rwa [if_pos hm] at hd'
    · rw [if_neg hm] at hd'; cases hd'
  · intro m d hd
    have hd' : d ∈ (if m ∈ s.steps then inDeps s m else []) := hd
    by_cases hm : m ∈ s.steps
    · exact hm
    · rw [if_neg hm] at hd'; cases hd'
  · intro m d hd
    have hd' : d ∈ (if m ∈ s.steps then inDeps s m else []) := hd
    by_cases hm : m ∈ s.steps
    · rw [if_pos hm] at hd'
      have := inDeps_mem_steps hd'
      show (if d ∈ s.steps then true else false) = true
      rw [if_pos this]
    · rw [if_neg hm] at hd'; cases hd'
  · intro m d hm hd _
    show d ∈ (if m ∈ s.steps then inDeps s m else [])
    rw [if_pos hm]
    exact hd
  · intro m h
    cases h
  · intro m hm hp
    have hp' : (if m ∈ s.steps then true else false) = false := hp
    rw [if_pos hm] at hp'
    cases hp'
  · intro m
    constructor
    · intro h
      cases h
    · rintro ⟨hm, hp, _⟩
      have hp' : (if m ∈ s.steps then true else false) = false := hp
      rw [if_pos hm] at hp'
      cases hp'
  · intro m c k h
    cases h
  · intro m hm ⟨d, hdin, hdp, _⟩
    have hds := inDeps_mem_steps hdin
    have hp' : (if d ∈ s.steps then true else false) = false := hdp
    rw [if_pos hds] at hp'
    cases hp'
  · intro m _
    rfl
  · intro m hm
    show (if m ∈ s.steps then (inDeps s m).isEmpty else false) = false
    rw [if_neg hm]
  · intro m hm
    show (if m ∈ s.steps then true else false) = false
    rw [if_neg hm]

/-- The invariant is preserved by a start transition. -/
theorem inv_wstart {s : Sched} {st : St} {n : String} {st2 : St}
    (hinv : SchedInv s st) (h : wstartFn st n = some st2) :
    SchedInv s st2 := by
  obtain ⟨hw, he, rfl⟩ := wstartFn_eq h
  have hn : n ∈ s.steps := by
    by_contra hns
    rw [hinv.nonstep_event n hns] at he
    cases he
  refine
    { event_empty := hinv.event_empty, empty_event := hinv.empty_event,
      waits_nodup := hinv.waits_nodup, waits_sub := hinv.waits_sub,
      waits_step := hinv.waits_step, waits_proc := hinv.waits_proc,
      waits_full := hinv.waits_full, ran_event := ?_, joined_exited := ?_,
      fails_iff := ?_, killed_shape := ?_, killed := ?_, nonstep_stat := ?_,
      nonstep_event := hinv.nonstep_event, nonstep_proc := hinv.nonstep_proc }
  · intro m hm
    dsimp only at hm ⊢
    by_cases hmn : m = n
    · subst hmn
      exact he
    · rw [upd_ne _ _ _ _ hmn] at hm
      exact hinv.ran_event m hm
  · intro m hm hp
    dsimp only at hp ⊢
    by_cases hmn : m = n
    · subst hmn
      have := hinv.joined_exited m hm hp
      rw [hw] at this
      cases this
    · rw [upd_ne _ _ _ _ hmn]
      exact hinv.joined_exited m hm hp
  · intro m
    dsimp only
    rw [hinv.fails_iff m]
    by_cases hmn : m = n
    · subst hmn
      constructor
      · rintro ⟨h1, h2, _⟩
        have := hinv.joined_exited m h1 h2
        rw [hw] at this
        cases this
      · rintro ⟨h1, h2, _⟩
        have := hinv.joined_exited m h1 h2
        rw [hw] at this
        cases this
    · rw [upd_ne _ _ _ _ hmn]
  · intro m c k hmk
    dsimp only at hmk ⊢
    by_cases hmn : m = n
    · subst hmn
      rw [upd_eq] at hmk
      cases hmk
    · rw [upd_ne _ _ _ _ hmn] at hmk ⊢
      exact hinv.killed_shape m c k hmk
  · intro m hm hd
    obtain ⟨d, hdin, hdp, hdf⟩ := hd
    dsimp only at hdp hdf ⊢
    have hdn : d ≠ n := by
      intro hdd
      subst hdd
      rw [upd_eq] at hdf
      cases hdf
    rw [upd_ne _ _ _ _ hdn] at hdf
    have h9 := hinv.killed m hm ⟨d, hdin, hdp, hdf⟩
    have hmn : m ≠ n := by
      intro hmm
      subst hmm
      rw [hw] at h9
      cases h9
    rw [upd_ne _ _ _ _ hmn]
    exact h9
  · intro m hns
    dsimp only
    have hmn : m ≠ n := fun hmm => hns (hmm ▸ hn)
    rw [upd_ne _ _ _ _ hmn]
    exact hinv.nonstep_stat m hns

/-- The invariant is preserved by a finish transition. -/
theorem inv_wfinish {s : Sched} {st : St} {n : String} {st2 : St}
    (hinv : SchedInv s st) (h : wfinishFn s st n = some st2) :
    SchedInv s st2 := by
  obtain ⟨hw, rfl⟩ := wfinishFn_eq h
  have hn : n ∈ s.steps := by
    by_contra hns
    rw [hinv.nonstep_stat n hns] at hw
    cases hw
  have hev : st.event n = true := by
    apply hinv.ran_event
    rw [hw]
    rfl
  have hproc : st.inProc n = true := by
    cases hb : st.inProc n
    · have := hinv.joined_exited n hn hb
      rw [hw] at this
      cases this
    · rfl
  refine
    { event_empty := hinv.event_empty, empty_event := hinv.empty_event,
      waits_nodup := hinv.waits_nodup, waits_sub := hinv.waits_sub,
      waits_step := hinv.waits_step, waits_proc := hinv.waits_proc,
      waits_full := hinv.waits_full, ran_event := ?_, joined_exited := ?_,
      fails_iff := ?_, killed_shape := ?_, killed := ?_, nonstep_stat := ?_,
      nonstep_event := hinv.nonstep_event, nonstep_proc := hinv.nonstep_proc }
  · intro m hm
    dsimp only at hm ⊢
    by_cases hmn : m = n
    · subst hmn
      exact hev
    · rw [upd_ne _ _ _ _ hmn] at hm
      exact hinv.ran_event m hm
  · intro m hm hp
    dsimp only at hp ⊢
    by_cases hmn : m = n
    · subst hmn
      rw [hproc] at hp
      cases hp
    · rw [upd_ne _ _ _ _ hmn]
      exact hinv.joined_exited m hm hp
  · intro m
    dsimp only
    rw [hinv.fails_iff m]
    by_cases hmn : m = n
    · subst hmn
      constructor
      · rintro ⟨h1, h2, _⟩
        rw [hproc] at h2
        cases h2
      · rintro ⟨h1, h2, _⟩
        rw [hproc] at h2
        cases h2
    · rw [upd_ne _ _ _ _ hmn]
  · intro m c k hmk
    dsimp only at hmk ⊢
    by_cases hmn : m = n
    · subst hmn
      rw [upd_eq] at hmk
      cases hmk
    · rw [upd_ne _ _ _ _ hmn] at hmk ⊢
      exact hinv.killed_shape m c k hmk
  · intro m hm hd
    obtain ⟨d, hdin, hdp, hdf⟩ := hd
    dsimp only at hdp hdf ⊢
    have hdn : d ≠ n := by
      intro hdd
      subst hdd
      rw [hproc] at hdp
      cases hdp
    rw [upd_ne _ _ _ _ hdn] at hdf
    have h9 := hinv.killed m hm ⟨d, hdin, hdp, hdf⟩
    have hmn : m ≠ n := by
      intro hmm
      subst hmm
      rw [hw] at h9
      cases h9
    rw [upd_ne _ _ _ _ hmn]
    exact h9
  · intro m hns
    dsimp only
    have hmn : m ≠ n := fun hmm => hns (hmm ▸ hn)
    rw [upd_ne _ _ _ _ hmn]
    exact hinv.nonstep_stat m hns

/-- The invariant is preserved by a join transition. -/
theorem inv_ojoin {s : Sched} {st : St} {n : String} {st2 : St}
    (hwf : SchedWF s) (hinv : SchedInv s st) (h : ojoinFn s st n = some st2) :
    SchedInv s st2 := by
  obtain ⟨hproc, c, k, r, hw, rfl⟩ := ojoinFn_eq h
  have hn : n ∈ s.steps := by
    by_contra hns
    rw [hinv.nonstep_proc n hns] at hproc
    cases hproc
  have hWsub : ∀ m d, d ∈ ojWaits s st n m → d ∈ st.waits m := by
    intro m d hd2
    unfold ojWaits at hd2
    split at hd2
    · exact List.erase_subset n (st.waits m) hd2
    · exact hd2
  have hWne : ∀ m d, d ∈ ojWaits s st n m → d ≠ n := by
    intro m d hd2
    unfold ojWaits at hd2
    split at hd2
    · exact ((hinv.waits_nodup m).mem_erase_iff.mp hd2).1
    · rename_i hcond
      exact fun hdd => hcond ⟨hinv.waits_step m d hd2, hdd ▸ hd2⟩
  refine
    { event_empty := ?_, empty_event := ?_, waits_nodup := ?_,
      waits_sub := ?_, waits_step := ?_, waits_proc := ?_, waits_full := ?_,
      ran_event := ?_, joined_exited := ?_, fails_iff := ?_,
      killed_shape := ?_, killed := ?_, nonstep_stat := ?_,
      nonstep_event := ?_, nonstep_proc := ?_ }
  · intro m hE
    dsimp only at hE ⊢
    unfold ojEvent at hE
    split at hE
    · rename_i hcond
      exact hcond.2
    · have h0 := hinv.event_empty m hE
      unfold ojWaits
      split
      · rename_i hcond
        exact absurd (h0 ▸ hcond.2) (List.not_mem_nil n)
      · exact h0
  · intro m hm2 hW2
    dsimp only at hW2 ⊢
    unfold ojEvent
    rw [if_pos ⟨hm2, hW2⟩]
  · intro m
    dsimp only
    unfold ojWaits
    split
    · exact (hinv.waits_nodup m).erase n
    · exact hinv.waits_nodup m
  · intro m d hd2
    dsimp only at hd2
    exact hinv.waits_sub m d (hWsub m d hd2)
  · intro m d hd2
    dsimp only at hd2
    exact hinv.waits_step m d (hWsub m d hd2)
  · intro m d hd2
    dsimp only at hd2 ⊢
    have h1 := hWsub m d hd2
    have h2 := hWne m d hd2
    rw [upd_ne _ _ _ _ h2]
    exact hinv.waits_proc m d h1
  · intro m d hm2 hdin hdp2
    dsimp only at hdp2 ⊢
    have hdnn : d ≠ n := by
      intro hdd
      subst hdd
      rw [upd_eq] at hdp2
      cases hdp2
    have hdp3 : st.inProc d = true := by rwa [upd_ne _ _ _ _ hdnn] at hdp2
    have hold := hinv.waits_full m d hm2 hdin hdp3
    unfold ojWaits
    split
    · exact (List.mem_erase_of_ne hdnn).mpr hold
    · exact hold
  · intro m hm2
    dsimp only at hm2 ⊢
    unfold ojWstat at hm2
    split at hm2
    · exact ojEvent_mono (hinv.ran_event m (terminate_ran hm2))
    · exact ojEvent_mono (hinv.ran_event m hm2)
  · intro m hm2 hp2
    dsimp only at hp2 ⊢
    by_cases hmn : m = n
    · subst hmn
      have hwn : ojWstat s st m c m = st.wstat m := by
        unfold ojWstat
        rw [if_neg]
        rintro ⟨_, _, _, hne, _⟩
        exact hne rfl
      rw [hwn, hw]
      rfl
    · have hPm : st.inProc m = false := by rwa [upd_ne _ _ _ _ hmn] at hp2
      have hex := hinv.joined_exited m hm2 hPm
      unfold ojWstat
      split
      · rename_i hcond
        obtain ⟨_, _, _, _, hPm2⟩ := hcond
        rw [hPm] at hPm2
        cases hPm2
      · exact hex
  · intro m
    dsimp only
    by_cases hmn : m = n
    · subst hmn
      have hnotold : m ∉ st.fails := by
        intro hin
        have h2 := ((hinv.fails_iff m).mp hin).2.1
        rw [hproc] at h2
        cases h2
      have hwn : ojWstat s st m c m = st.wstat m := by
        unfold ojWstat
        rw [if_neg]
        rintro ⟨_, _, _, hne, _⟩
        exact hne rfl
      constructor
      · intro hin
        by_cases hc0 : c = 0
        · rw [if_pos hc0] at hin
          exact absurd hin hnotold
        · refine ⟨hn, ?_, ?_⟩
          · rw [upd_eq]
          · rw [hwn, hw]
            simp [statFail, hc0]
      · rintro ⟨_, _, hsf⟩
        rw [hwn, hw] at hsf
        have hc0 : c ≠ 0 := by
          simp only [statFail, decide_eq_true_eq] at hsf
          exact hsf
        rw [if_neg hc0]
        simp
    · have hwm : ojWstat s st n c m = st.wstat m ∨ st.inProc m = true := by
        by_cases hPm : st.inProc m = true
        · exact Or.inr hPm
        · refine Or.inl ?_
          unfold ojWstat
          rw [if_neg]
          rintro ⟨_, _, _, _, hPm2⟩
          exact hPm hPm2
      have hfl : (m ∈ (if c = 0 then st.fails else st.fails ++ [n])) ↔
          m ∈ st.fails := by
        by_cases hc0 : c = 0
        · rw [if_pos hc0]
        · rw [if_neg hc0]
          simp [hmn]
      rw [hfl, hinv.fails_iff m, upd_ne _ _ _ _ hmn]
      constructor
      · rintro ⟨h1, h2, h3⟩
        refine ⟨h1, h2, ?_⟩
        have hwm2 : ojWstat s st n c m = st.wstat m := by
          unfold ojWstat
          rw [if_neg]
          rintro ⟨_, _, _, _, hPm2⟩
          rw [h2] at hPm2
          cases hPm2
        rw [hwm2]
        exact h3
      · rintro ⟨h1, h2, h3⟩
        have hwm2 : ojWstat s st n c m = st.wstat m := by
          unfold ojWstat
          rw [if_neg]
          rintro ⟨_, _, _, _, hPm2⟩
          rw [h2] at hPm2
          cases hPm2
        rw [hwm2] at h3
        exact ⟨h1, h2, h3⟩
  · intro m c2 k2 hmk
    dsimp only at hmk ⊢
    unfold ojWstat at hmk ⊢
    split at hmk
    · rename_i hcond
      rw [if_pos hcond]
      cases hws : st.wstat m with
      | blocked => rfl
      | running =>
        rw [hws] at hmk
        simp [terminate] at hmk
      | exited c3 k3 r3 =>
        rw [hws] at hmk
        simp only [terminate] at hmk
        injection hmk with e1 e2 e3
        rw [e3] at hws
        have h9 := hinv.killed_shape m c3 k3 hws
        have h10 := hws.symm.trans h9
        injection h10 with f1 f2 f3
        rw [e3, f1, f2]
        rfl
    · rename_i hcond
      rw [if_neg hcond]
      exact hinv.killed_shape m c2 k2 hmk
  · intro m hm2 hd
    obtain ⟨d, hdin, hdp, hdf⟩ := hd
    dsimp only at hdp hdf ⊢
    have hdf2 : statFail (st.wstat d) = true := by
      by_cases hdn : d = n
      · subst hdn
        have hwn : ojWstat s st d c d = st.wstat d := by
          unfold ojWstat
          rw [if_neg]
          rintro ⟨_, _, _, hne, _⟩
          exact hne rfl
        rwa [hwn] at hdf
      · have hPd : st.inProc d = false := by rwa [upd_ne _ _ _ _ hdn] at hdp
        have hwd : ojWstat s st n c d = st.wstat d := by
          unfold ojWstat
          rw [if_neg]
          rintro ⟨_, _, _, _, hPm2⟩
          rw [hPd] at hPm2
          cases hPm2
        rwa [hwd] at hdf
    by_cases hdn : d = n
    · subst hdn
      have hc0 : c ≠ 0 := by
        rw [hw] at hdf2
        simp only [statFail, decide_eq_true_eq] at hdf2
        exact hdf2
      have hmn : m ≠ d := by
        intro hmm
        subst hmm
        exact (hwf.2 m hm2) hdin
      have hnw : d ∈ st.waits m := hinv.waits_full m d hm2 hdin hproc
      show ojWstat s st d c m = WStatus.exited (-15) true false
      by_cases hPm : st.inProc m = true
      · unfold ojWstat
        rw [if_pos ⟨hm2, hnw, hc0, hmn, hPm⟩]
        cases hws : st.wstat m with
        | blocked => rfl
        | running =>
          have hev := hinv.ran_event m (by rw [hws]; rfl)
          have h0 := hinv.event_empty m hev
          exact absurd (h0 ▸ hnw) (List.not_mem_nil d)
        | exited c3 k3 r3 =>
          cases r3 with
          | true =>
            have hev := hinv.ran_event m (by rw [hws]; rfl)
            have h0 := hinv.event_empty m hev
            exact absurd (h0 ▸ hnw) (List.not_mem_nil d)
          | false =>
            have h9 := hinv.killed_shape m c3 k3 hws
            have h10 := hws.symm.trans h9
            injection h10 with f1 f2 f3
            rw [f1, f2]
            rfl
      · have hPm2 : st.inProc m = false := by
          cases hb : st.inProc m
          · rfl
          · exact absurd hb hPm
        have hex := hinv.joined_exited m hm2 hPm2
        cases hws : st.wstat m with
        | blocked => rw [hws] at hex; cases hex
        | running => rw [hws] at hex; cases hex
        | exited c3 k3 r3 =>
          cases r3 with
          | true =>
            have hev := hinv.ran_event m (by rw [hws]; rfl)
            have h0 := hinv.event_empty m hev
            exact absurd (h0 ▸ hnw) (List.not_mem_nil d)
          | false =>
            have h9 := hinv.killed_shape m c3 k3 hws
            unfold ojWstat
            rw [if_neg]
            · exact h9
            · rintro ⟨_, _, _, _, hPm3⟩
              rw [hPm2] at hPm3
              cases hPm3
    · have hPd : st.inProc d = false := by rwa [upd_ne _ _ _ _ hdn] at hdp
      have h9 := hinv.killed m hm2 ⟨d, hdin, hPd, hdf2⟩
      show ojWstat s st n c m = WStatus.exited (-15) true false
      unfold ojWstat
      split
      · rw [h9]
        rfl
      · exact h9
  · intro m hns
    dsimp only
    unfold ojWstat
    rw [if_neg (fun hc => hns hc.1)]
    exact hinv.nonstep_stat m hns
  · intro m hns
    dsimp only
    unfold ojEvent
    rw [if_neg (fun hc => hns hc.1)]
    exact hinv.nonstep_event m hns
  · intro m hns
    dsimp only
    have hmn : m ≠ n := fun hmm => hns (hmm ▸ hn)
    rw [upd_ne _ _ _ _ hmn]
    exact hinv.nonstep_proc m hns

/-- The invariant is preserved by every transition. -/
theorem inv_step {s : Sched} {st : St} {e : Ev} {st2 : St}
    (hwf : SchedWF s) (hinv : SchedInv s st) (h : stepFn s st e = some st2) :
    SchedInv s st2 := by
  cases e with
  | start n => exact inv_wstart hinv h
  | finish n => exact inv_wfinish hinv h
  | join n => exact inv_ojoin hwf hinv h

/-- The invariant is preserved along every schedule. -/
theorem inv_run_from {s : Sched} (hwf : SchedWF s) :
    ∀ (evs : List Ev) (st st2 : St), SchedInv s st →
      runEvs s st evs = some st2 → SchedInv s st2 := by
  intro evs
  induction evs with
  | nil =>
    intro st st2 hinv h
    cases h
    exact hinv
  | cons e es ih =>
    intro st st2 hinv h
    unfold runEvs at h
    split at h
    · rename_i st3 heq
      exact ih st3 st2 (inv_step hwf hinv heq) h
    · cases h

/-- Steps not depending on the failed step F keep an untouched status
across every transition, provided their build actions succeed. -/
theorem inv9_step {s : Sched} {F : String} {st st2 : St} {e : Ev}
    (hwf : SchedWF s) (hinv : SchedInv s st)
    (hok : ∀ q ∈ s.steps, q ≠ F → ¬ DependsOn s F q → s.buildOk q = true)
    (h9 : ∀ m ∈ s.steps, m ≠ F → ¬ DependsOn s F m → okStatus (st.wstat m))
    (h : stepFn s st e = some st2) :
    ∀ m ∈ s.steps, m ≠ F → ¬ DependsOn s F m → okStatus (st2.wstat m) := by
  intro m hm hmF hmD
  cases e with
  | start n =>
    obtain ⟨hw, he, rfl⟩ := wstartFn_eq h
    dsimp only
    by_cases hmn : m = n
    · subst hmn
      rw [upd_eq]
      exact Or.inr (Or.inl rfl)
    · rw [upd_ne _ _ _ _ hmn]
      exact h9 m hm hmF hmD
  | finish n =>
    obtain ⟨hw, rfl⟩ := wfinishFn_eq h
    dsimp only
    by_cases hmn : m = n
    · subst hmn
      rw [upd_eq]
      have hb := hok m hm hmF hmD
      rw [if_pos hb]
      exact Or.inr (Or.inr rfl)
    · rw [upd_ne _ _ _ _ hmn]
      exact h9 m hm hmF hmD
  | join n =>
    obtain ⟨hproc, c, k, r, hw, rfl⟩ := ojoinFn_eq h
    dsimp only
    unfold ojWstat
    split
    · rename_i hcond
      obtain ⟨_, hnw, hc0, _, _⟩ := hcond
      exfalso
      have hnin : n ∈ inDeps s m := hinv.waits_sub m n hnw
      have hns : n ∈ s.steps := inDeps_mem_steps hnin
      by_cases hnF : n = F
      · exact hmD (DependsOn.direct (hnF ▸ hnin))
      · by_cases hnD : DependsOn s F n
        · exact hmD (DependsOn.tail hnD hnin)
        · have hok9 := h9 n hns hnF hnD
          rw [hw] at hok9
          rcases hok9 with h1 | h1 | h1
          · cases h1
          · cases h1
          · injection h1 with g1 g2 g3
            exact hc0 g1
    · exact h9 m hm hmF hmD

/-- inv9 along a schedule. -/
theorem inv9_run_from {s : Sched} {F : String}
    (hwf : SchedWF s)
    (hok : ∀ q ∈ s.steps, q ≠ F → ¬ DependsOn s F q → s.buildOk q = true) :
    ∀ (evs : List Ev) (st st2 : St), SchedInv s st →
      (∀ m ∈ s.steps, m ≠ F → ¬ DependsOn s F m → okStatus (st.wstat m)) →
      runEvs s st evs = some st2 →
      ∀ m ∈ s.steps, m ≠ F → ¬ DependsOn s F m → okStatus (st2.wstat m) := by
  intro evs
  induction evs with
  | nil =>
    intro st st2 _ h9 h
    cases h
    exact h9
  | cons e es ih =>
    intro st st2 hinv h9 h
    unfold runEvs at h
    split at h
    · rename_i st3 heq
      exact ih st3 st2 (inv_step hwf hinv heq)
        (inv9_step hwf hinv hok h9 heq) h
    · cases h

/-- In a complete run in which F exited nonzero, every step transitively
depending on F was killed without its build action having been invoked. -/
theorem cascade_killed {s : Sched} {F : String} {stf : St}
    (hinv : SchedInv s stf)
    (hcomplete : ∀ q ∈ s.steps, stf.inProc q = false)
    (hFfail : statFail (stf.wstat F) = true) :
    ∀ m, DependsOn s F m → m ∈ s.steps →
      stf.wstat m = WStatus.exited (-15) true false := by
  intro m hdep
  induction hdep with
  | direct hFin =>
    intro hm
    have hFs : F ∈ s.steps := inDeps_mem_steps hFin
    exact hinv.killed _ hm ⟨F, hFin, hcomplete F hFs, hFfail⟩
  | tail hd hdm ih =>
    intro hm
    rename_i d m2
    have hds : d ∈ s.steps := inDeps_mem_steps hdm
    have h9 := ih hds
    refine hinv.killed _ hm ⟨d, hdm, hcomplete d hds, ?_⟩
    rw [h9]
    decide

/-! ## Theorems for the scheduler (C3, C4) -/

/-- C3 counterexample: in the two-step graph where b waits on the failing
a, the join of a terminates b (cancelling it) and, in that same join, also
sets b's gate once a is removed from b's wait list: the gate of a cancelled
step is set, refuting the claim's "and the step was not cancelled"
condition. -/
theorem C3_cancelled_step_gate_set_counterexample :
    runEvs c3Sched (initSt c3Sched) [Ev.start "a", Ev.finish "a"] = some c3St1
  ∧ c3St1.event "b" = false
  ∧ stepFn c3Sched c3St1 (Ev.join "a") = some c3St2
  ∧ c3St2.wstat "b" = WStatus.exited (-15) true false
  ∧ c3St2.event "b" = true :=
  ⟨rfl, by decide, rfl, by decide, by decide⟩

/-- C3 (amended): the scheduler sets each requested step's gate at creation
iff the step has no dependencies within the requested set; afterwards a
gate flips from unset to set only when the step's remaining in-set
dependency count reaches zero — whether or not the step was cancelled (the
gate of a dependent terminated by a failure cascade is still set once its
last remaining dependency is removed); whenever the remaining count is zero
the gate is set; and a gate, once set, is never cleared. -/
theorem C3_gate_discipline (s : Sched) (hwf : SchedWF s) :
    (∀ m, m ∈ s.steps → ((initSt s).event m = true ↔ inDeps s m = []))
  ∧ (∀ st e st2 m, stepFn s st e = some st2 → st.event m = true →
      st2.event m = true)
  ∧ (∀ st e st2 m, stepFn s st e = some st2 → st.event m = false →
      st2.event m = true → st2.waits m = [])
  ∧ (∀ evs st m, runEvs s (initSt s) evs = some st → m ∈ s.steps →
      st.waits m = [] → st.event m = true) := by
  refine ⟨?_, ?_, ?_, ?_⟩
  · intro m hm
    show (if m ∈ s.steps then (inDeps s m).isEmpty else false) = true ↔ _
    rw [if_pos hm]
    exact List.isEmpty_iff
  · intro st e st2 m h hm
    exact stepFn_event_mono h m hm
  · intro st e st2 m h h0 h1
    exact stepFn_event_set_waits h m h0 h1
  · intro evs st m h hm hW
    exact (inv_run_from hwf evs _ st (inv_init s hwf) h).empty_event m hm hW

/-- C3 witness: the gate discipline applied to a concrete two-step run in
which b's dependency a succeeds and is joined, setting b's gate. -/
theorem C3_gate_discipline_witness :
    SchedWF c3wSched
  ∧ ((initSt c3wSched).event "a" = true ↔ inDeps c3wSched "a" = [])
  ∧ runEvs c3wSched (initSt c3wSched)
      [Ev.start "a", Ev.finish "a", Ev.join "a"] = some c3wSt
  ∧ c3wSt.event "b" = true :=
  ⟨by decide,
   (C3_gate_discipline c3wSched (by decide)).1 "a" (by decide),
   rfl,
   (C3_gate_discipline c3wSched (by decide)).2.2.2
     [Ev.start "a", Ev.finish "a", Ev.join "a"] c3wSt "b" rfl (by decide)
     (by decide)⟩

/-- C4: when a step's build process exits nonzero, at its join every
not-yet-finished step whose remaining dependency set contains it is
forcefully terminated (killed, its build action never invoked); in a
complete run every step transitively dependent on the failed step F ends
killed with its build action never invoked; and every step with no
dependency path from F (whose build action succeeds) runs to completion
unaffected and is not recorded as a failure. -/
theorem C4_failure_cascade (s : Sched) (F : String) (evs : List Ev)
    (stf : St) (hwf : SchedWF s)
    (hrun : runEvs s (initSt s) evs = some stf)
    (hcomplete : ∀ q ∈ s.steps, stf.inProc q = false)
    (hF : F ∈ s.steps)
    (hFfail : statFail (stf.wstat F) = true)
    (hok : ∀ q ∈ s.steps, q ≠ F → ¬ DependsOn s F q → s.buildOk q = true) :
    (∀ st st2 n m, ReachableSt s st → ojoinFn s st n = some st2 →
      statFail (st.wstat n) = true → m ∈ s.steps → m ≠ n →
      n ∈ st.waits m → st.inProc m = true →
      st2.wstat m = WStatus.exited (-15) true false)
  ∧ (∀ m, m ∈ s.steps → DependsOn s F m →
      stf.wstat m = WStatus.exited (-15) true false)
  ∧ (∀ m, m ∈ s.steps → m ≠ F → ¬ DependsOn s F m →
      stf.wstat m = WStatus.exited 0 false true ∧ m ∉ stf.fails) := by
  have hinvf : SchedInv s stf :=
    inv_run_from hwf evs _ stf (inv_init s hwf) hrun
  refine ⟨?_, ?_, ?_⟩
  · intro st st2 n m hreach hoj hnf hm hmn hnw hPm
    obtain ⟨evs0, hre⟩ := hreach
    have hinv := inv_run_from hwf evs0 _ st (inv_init s hwf) hre
    obtain ⟨hproc, c, k, r, hw, rfl⟩ := ojoinFn_eq hoj
    have hc0 : c ≠ 0 := by
      rw [hw] at hnf
      simp only [statFail, decide_eq_true_eq] at hnf
      exact hnf
    dsimp only
    unfold ojWstat
    rw [if_pos ⟨hm, hnw, hc0, hmn, hPm⟩]
    cases hws : st.wstat m with
    | blocked => rfl
    | running =>
      have hev := hinv.ran_event m (by rw [hws]; rfl)
      have h0 := hinv.event_empty m hev
      exact absurd (h0 ▸ hnw) (List.not_mem_nil n)
    | exited c3 k3 r3 =>
      cases r3 with
      | true =>
        have hev := hinv.ran_event m (by rw [hws]; rfl)
        have h0 := hinv.event_empty m hev
        exact absurd (h0 ▸ hnw) (List.not_mem_nil n)
      | false =>
        have h9 := hinv.killed_shape m c3 k3 hws
        have h10 := hws.symm.trans h9
        injection h10 with f1 f2 f3
        rw [f1, f2]
        rfl
  · intro m hm hdep
    exact cascade_killed hinvf hcomplete hFfail m hdep hm
  · intro m hm hmF hmD
    have h9 := inv9_run_from hwf hok evs (initSt s) stf (inv_init s hwf)
      (fun q _ _ _ => Or.inl rfl) hrun m hm hmF hmD
    have hex := hinvf.joined_exited m hm (hcomplete m hm)
    rcases h9 with h1 | h1 | h1
    · rw [h1] at hex
      cases hex
    · rw [h1] at hex
      cases hex
    · refine ⟨h1, ?_⟩
      intro hin
      have h3 := ((hinvf.fails_iff m).mp hin).2.2
      rw [h1] at h3
      simp [statFail] at h3

/-- C4 witness: the spec scenario with c waiting on a and b, where a
succeeds and b fails: c is terminated and never runs its build action,
while a completes unaffected. -/
theorem C4_failure_cascade_witness :
    SchedWF c4Sched
  ∧ runEvs c4Sched (initSt c4Sched) c4Evs = some c4Stf
  ∧ (∀ q ∈ c4Sched.steps, c4Stf.inProc q = false)
  ∧ statFail (c4Stf.wstat "b") = true
  ∧ c4Stf.wstat "c" = WStatus.exited (-15) true false
  ∧ c4Stf.wstat "a" = WStatus.exited 0 false true
  ∧ "a" ∉ c4Stf.fails := by
  have hwf : SchedWF c4Sched := by decide
  have hcomp : ∀ q ∈ c4Sched.steps, c4Stf.inProc q = false := by decide
  have hFf : statFail (c4Stf.wstat "b") = true := by decide
  have hok : ∀ q ∈ c4Sched.steps, q ≠ "b" → ¬ DependsOn c4Sched "b" q →
      c4Sched.buildOk q = true := by
    intro q _ hne _
    exact decide_eq_true hne
  have h := C4_failure_cascade c4Sched "b" c4Evs c4Stf hwf rfl hcomp
    (by decide) hFf hok
  have hnd : ¬ DependsOn c4Sched "b" "a" := by
    intro hd
    have hemp : inDeps c4Sched "a" = [] := by decide
    cases hd with
    | direct h1 =>
      rw [hemp] at h1
      exact absurd h1 (List.not_mem_nil "b")
    | tail h1 h2 =>
      rw [hemp] at h2
      exact absurd h2 (List.not_mem_nil _)
  refine ⟨hwf, rfl, hcomp, hFf, ?_, ?_, ?_⟩
  · exact h.2.1 "c" (by decide) (DependsOn.direct (by decide))
  · exact (h.2.2 "a" (by decide) (by decide) hnd).1
  · exact (h.2.2 "a" (by decide) (by decide) hnd).2
